import Mathlib

/-!
Shallow embedding of the core of the `sec-int` repository:
the recursive text chunker (`src/app/ingestion/chunking.py`), the retrieval
service (`src/app/retrieval.py`) and the batch orchestrator
(`src/app/orchestrator.py`).

Python strings are modelled as lists of characters (`Str`); the Python
string operations used by the code (`strip`, `split`, `find`, slicing,
`startswith`, `in`, `upper`, `isdigit`, `" ".join`) are defined below and
mirror CPython semantics on the inputs the code uses.  Python `int` is
modelled as `ℤ`, Python floats appearing in the token estimator as `ℚ`
(`int(x)` on an exact rational `a/b` truncates toward zero, which is
`Int.tdiv a b`).  Fallible paths
(the `range` step of `_character_split` being zero, provider calls) are
modelled with `Option` / `Except`.
-/

/-- Python strings, modelled as lists of characters. -/
abbrev Str := List Char

/-- Conversion from a Lean string literal to the model type. -/
def strOf (s : String) : Str := s.data

/-- The ASCII whitespace characters recognised by Python `str.strip()`. -/
def isPySpace (c : Char) : Bool :=
  c == ' ' || c == '\t' || c == '\n' || c == '\r' || c == '\x0b' || c == '\x0c'

/-- Python `s.strip()`: remove leading and trailing whitespace. -/
def pyStrip (l : Str) : Str :=
  ((l.dropWhile isPySpace).reverse.dropWhile isPySpace).reverse

/-- Python `s.find(' ')`: index of the first space, `-1` if absent. -/
def pyFindSpace : Str → ℤ
  | [] => -1
  | c :: rest =>
    if c = ' ' then 0
    else
      let r := pyFindSpace rest
      if r = -1 then -1 else r + 1

/-- Auxiliary scanner for Python `s.split(sep)` with a non-empty separator:
accumulates the current field (reversed) and splits at each occurrence of
`sep`, scanning left to right without overlap.  Recursion is structural on
a fuel argument so that applications reduce; every step consumes at least
one character, so fuel equal to the input length (as passed by `pySplit`)
always suffices and the fuel-exhausted fallback is unreachable. -/
def pySplitAux (sep : Str) : ℕ → Str → Str → List Str
  | _, acc, [] => [acc.reverse]
  | 0, acc, rest => [acc.reverse ++ rest]
  | fuel + 1, acc, c :: rest =>
    if sep ≠ [] ∧ sep.isPrefixOf (c :: rest) then
      acc.reverse :: pySplitAux sep fuel [] ((c :: rest).drop sep.length)
    else
      pySplitAux sep fuel (c :: acc) rest

/-- Python `s.split(sep)` for a non-empty separator. -/
def pySplit (sep l : Str) : List Str := pySplitAux sep l.length [] l

/-- Python substring containment `sep in text`. -/
def containsSub (sep : Str) : Str → Bool
  | [] => sep.isPrefixOf []
  | c :: rest => sep.isPrefixOf (c :: rest) || containsSub sep rest

/-- Python `int(a/b)` for an exact rational quotient of integers with
`b > 0`: truncation toward zero. -/
def pyIntDiv (a b : ℤ) : ℤ := Int.tdiv a b

/-- Python `range(0, stop, step)` for a positive step. -/
def pyRange (stop step : ℕ) : List ℕ :=
  (List.range ((stop + step - 1) / step)).map (· * step)

/-- Decidable equality for `Except`, used to evaluate concrete provider
outcomes. -/
instance {e a : Type} [DecidableEq e] [DecidableEq a] : DecidableEq (Except e a) := fun x y =>
  match x, y with
  | .error u, .error v =>
    if h : u = v then isTrue (h ▸ rfl) else isFalse (fun hc => h (Except.error.inj hc))
  | .error _, .ok _ => isFalse (fun hc => Except.noConfusion hc)
  | .ok _, .error _ => isFalse (fun hc => Except.noConfusion hc)
  | .ok u, .ok v =>
    if h : u = v then isTrue (h ▸ rfl) else isFalse (fun hc => h (Except.ok.inj hc))

/-- Dropping the same predicate twice from the front is the same as once. -/
theorem dropWhile_dropWhile (p : α → Bool) (l : List α) :
    (l.dropWhile p).dropWhile p = l.dropWhile p := by
  induction l with
  | nil => rfl
  | cons c t ih =>
    by_cases h : p c
    · simp [List.dropWhile_cons, h, ih]
    · simp [List.dropWhile_cons, h]

/-- A list whose head does not satisfy `p` is unchanged by `dropWhile p`. -/
theorem dropWhile_eq_self_of_head (p : α → Bool) (l : List α)
    (h : ∀ c, l.head? = some c → ¬ p c) : l.dropWhile p = l := by
  cases l with
  | nil => rfl
  | cons c t =>
    have := h c rfl
    simp [List.dropWhile_cons, this]

/-- The head of `pyStrip l` is not whitespace. -/
theorem pyStrip_head_not (l : Str) :
    ∀ c, (pyStrip l).head? = some c → ¬ isPySpace c := by
  intro c hc
  unfold pyStrip at hc
  rw [List.head?_reverse] at hc
  -- the stripped list is a suffix of the reversed front-stripped list
  obtain ⟨pre, hpre⟩ :=
    List.dropWhile_suffix (l := (l.dropWhile isPySpace).reverse) isPySpace
  have hm : ((l.dropWhile isPySpace).reverse).getLast? = some c := by
    rw [← hpre, List.getLast?_append, hc]
    rfl
  rw [List.getLast?_reverse] at hm
  have := List.head?_dropWhile_not isPySpace l
  rw [hm] at this
  simpa using this

/-- The last element of `pyStrip l` is not whitespace. -/
theorem pyStrip_getLast_not (l : Str) :
    ∀ c, (pyStrip l).getLast? = some c → ¬ isPySpace c := by
  intro c hc
  unfold pyStrip at hc
  rw [List.getLast?_reverse] at hc
  have := List.head?_dropWhile_not isPySpace (l.dropWhile isPySpace).reverse
  rw [hc] at this
  simpa using this

/-- Stripping is idempotent. -/
theorem pyStrip_pyStrip (l : Str) : pyStrip (pyStrip l) = pyStrip l := by
  have h1 : (pyStrip l).dropWhile isPySpace = pyStrip l := by
    apply dropWhile_eq_self_of_head
    intro c hc
    exact pyStrip_head_not l c hc
  have h2 : (pyStrip l).reverse.dropWhile isPySpace = (pyStrip l).reverse := by
    apply dropWhile_eq_self_of_head
    intro c hc
    rw [List.head?_reverse] at hc
    exact pyStrip_getLast_not l c hc
  conv_lhs => rw [pyStrip]
  rw [h1, h2, List.reverse_reverse]

/-- Nonblank strings: stripping does not make them vanish. A string `s` is
blank in the Python sense (`not s.strip()`) iff `pyStrip s = []`. -/
def Nonblank (l : Str) : Prop := pyStrip l ≠ []

/-- A stripped nonempty string is nonblank. -/
theorem nonblank_of_pyStrip_ne_nil {l : Str} (h : pyStrip l ≠ []) :
    Nonblank (pyStrip l) := by
  unfold Nonblank
  rw [pyStrip_pyStrip]
  exact h

/-!
Model of `src/app/ingestion/chunking.py`.
-/

/-- Model of `TokenEstimator` (chunking.py, lines 35-52).  The characters
per token ratio is a Python float, modelled as a rational (default 4.0). -/
structure TokenEstimator where
  charsPerToken : ℚ

/-- Model of `TokenEstimator.estimate_tokens`:
`max(1, int(len(text) / self.chars_per_token))`.  With
`chars_per_token = num/den` (`den > 0`), `len(text)/chars_per_token` is
the exact rational `len·den/num`, and `int` truncates it toward zero. -/
def TokenEstimator.estimateTokens (te : TokenEstimator) (text : Str) : ℤ :=
  max 1 (pyIntDiv ((text.length : ℤ) * (te.charsPerToken.den : ℤ)) te.charsPerToken.num)

/-- Model of `TokenEstimator.estimate_chars_for_tokens`:
`int(token_count * self.chars_per_token)`, again via the exact rational
`tokenCount·num/den` truncated toward zero. -/
def TokenEstimator.estimateCharsForTokens (te : TokenEstimator) (tokenCount : ℤ) : ℤ :=
  pyIntDiv (tokenCount * te.charsPerToken.num) (te.charsPerToken.den : ℤ)

/-- Model of `RecursiveTextSplitter` state (chunking.py, lines 55-90). -/
structure Splitter where
  maxTokens : ℤ
  minTokens : ℤ
  overlapTokens : ℤ
  tokenizer : TokenEstimator

/-- The prioritized separator cascade of `RecursiveTextSplitter.__init__`. -/
def separatorCascade : List Str :=
  [strOf "\n\n\n", strOf "\n\n", strOf "\n", strOf ". ", strOf "! ",
   strOf "? ", strOf "; ", strOf ", ", strOf " ", []]

/-- Model of `RecursiveTextSplitter._character_split` (lines 163-173).
Python `range(0, len(text), max_chars)` raises `ValueError` when
`max_chars = 0` (modelled as `none`) and is empty when `max_chars < 0`. -/
def characterSplit (sp : Splitter) (text : Str) : Option (List Str) :=
  let maxChars := sp.tokenizer.estimateCharsForTokens sp.maxTokens
  if maxChars = 0 then none
  else if maxChars < 0 then some []
  else
    some (((pyRange text.length maxChars.toNat).map
      (fun i => pyStrip ((text.drop i).take maxChars.toNat))).filter (· ≠ []))

/-- One step of the recombination loop of `_recursive_split`
(lines 135-155).  The state is the pair `(chunks, current_chunk)`;
`splitRest` is the recursive call on the next separator, used for parts
that alone exceed the budget. -/
def recombineStep (sp : Splitter) (splitRest : Str → Option (List Str))
    (sep : Str) (nParts : ℕ) :
    Option (List Str × Str) → ℕ × Str → Option (List Str × Str)
  | none, _ => none
  | some (chunks, current), (i, part) =>
    let partWithSep := part ++ (if i < nParts - 1 then sep else [])
    let testChunk := current ++ partWithSep
    if sp.tokenizer.estimateTokens testChunk ≤ sp.maxTokens then
      some (chunks, testChunk)
    else
      let chunks' := if pyStrip current ≠ [] then chunks ++ [pyStrip current] else chunks
      if sp.maxTokens < sp.tokenizer.estimateTokens partWithSep then
        match splitRest partWithSep with
        | none => none
        | some sub => some (chunks' ++ sub, [])
      else
        some (chunks', partWithSep)

/-- Model of `RecursiveTextSplitter._recursive_split` (lines 109-161),
structurally recursive over the list of remaining separators (the code
recurses with `separator_index + 1`). -/
def recursiveSplit (sp : Splitter) : List Str → Str → Option (List Str)
  | [], text => characterSplit sp text
  | sep :: rest, text =>
    if sep = [] then characterSplit sp text
    else if ¬ containsSub sep text then recursiveSplit sp rest text
    else
      let parts := pySplit sep text
      if parts.length = 1 then recursiveSplit sp rest text
      else
        match parts.enum.foldl
            (recombineStep sp (fun t => recursiveSplit sp rest t) sep parts.length)
            (some ([], [])) with
        | none => none
        | some (chunks, current) =>
          let chunksF := if pyStrip current ≠ [] then chunks ++ [pyStrip current] else chunks
          some (chunksF.filter (· ≠ []))

/-- Model of `RecursiveTextSplitter.split_text` (lines 92-107). -/
def splitText (sp : Splitter) (text : Str) : Option (List Str) :=
  if pyStrip text = [] then some []
  else
    let tokenCount := sp.tokenizer.estimateTokens text
    if tokenCount ≤ sp.maxTokens then
      if sp.minTokens ≤ tokenCount then some [pyStrip text]
      else if pyStrip text ≠ [] then some [pyStrip text] else some []
    else
      recursiveSplit sp separatorCascade text

/-- Model of `RecursiveTextSplitter.create_overlapping_chunks`
(lines 175-199). -/
def createOverlappingChunks (sp : Splitter) (chunks : List Str) : List Str :=
  if chunks.length ≤ 1 then chunks
  else
    let overlapChars := sp.tokenizer.estimateCharsForTokens sp.overlapTokens
    chunks.enum.map fun p =>
      let i := p.1
      let chunk := p.2
      if 0 < i ∧ 0 < overlapChars then
        match chunks.get? (i - 1) with
        | none => chunk
        | some prevChunk =>
          if overlapChars < (prevChunk.length : ℤ) then
            let ovWindow := prevChunk.drop (prevChunk.length - overlapChars.toNat)
            let spacePos := pyFindSpace ovWindow
            let ovTrimmed :=
              if 0 < spacePos then ovWindow.drop (spacePos.toNat + 1) else ovWindow
            ovTrimmed ++ ' ' :: chunk
          else chunk
      else chunk

/-- Model of the `Chunk` dataclass (chunking.py, lines 20-32). -/
structure Chunk where
  content : Str
  vulnerability_id : Str
  title : Str
  source : Str
  url : Option Str
  order_index : ℕ
  token_count : ℤ
  overlap_pre : Bool
  overlap_post : Bool
deriving DecidableEq, Repr

/-- The document metadata mapping consumed by `chunk_document`
(keys `id`, `title`, `source`, `url`, absent keys defaulting per the
`.get` calls in the code). -/
structure DocMetadata where
  id : Str
  title : Str
  source : Str
  url : Option Str

/-- Model of `chunk_document` (chunking.py, lines 202-262).  The splitter
is built with the default `TokenEstimator()` (4.0 characters per token). -/
def chunkDocument (text : Str) (metadata : DocMetadata)
    (maxTokens minTokens overlapTokens : ℤ) : Option (List Chunk) :=
  if pyStrip text = [] then some []
  else
    let sp : Splitter :=
      { maxTokens := maxTokens, minTokens := minTokens,
        overlapTokens := overlapTokens, tokenizer := ⟨4⟩ }
    match splitText sp text with
    | none => none
    | some textChunks0 =>
      if textChunks0 = [] then some []
      else
        let textChunks :=
          if 1 < textChunks0.length ∧ 0 < overlapTokens then
            createOverlappingChunks sp textChunks0
          else textChunks0
        some (textChunks.enum.map fun p =>
          { content := p.2
            vulnerability_id := metadata.id
            title := metadata.title
            source := metadata.source
            url := metadata.url
            order_index := p.1
            token_count := sp.tokenizer.estimateTokens p.2
            overlap_pre := 0 < p.1 ∧ 0 < overlapTokens
            overlap_post := p.1 < textChunks.length - 1 ∧ 0 < overlapTokens })

/-!
Model of `src/app/retrieval.py`.
-/

/-- Python `s.upper()` (ASCII). -/
def pyUpper (l : Str) : Str := l.map Char.toUpper

/-- Python `s.isdigit()`: nonempty and all digits. -/
def pyIsDigit (l : Str) : Bool := !l.isEmpty && l.all Char.isDigit

/-- Python `" ".join(parts)`. -/
def joinSpace (parts : List Str) : Str := List.intercalate (strOf " ") parts

/-- One row of the `vulnerability_knowledge` table as seen by
`_vector_search`.  The field `distance` is the value of the expression
`embedding <-> $1::vector` for this row against the current query
embedding; the SQL computes `similarity_score = 1 - distance`. -/
structure Row where
  content : Str
  title : Option Str
  url : Option Str
  source : Str
  vulnerability_id : Str
  distance : ℚ
deriving DecidableEq, Repr

/-- The `similarity_score` column computed by the SQL query of
`_vector_search`: `1 - (embedding <-> $1::vector)`.  For
`distance = num/den` this is the rational `(den - num)/den`; it is
written with `mkRat` so that concrete instances evaluate
(`similarityScore_eq` below shows it equals `1 - distance`). -/
def similarityScore (r : Row) : ℚ :=
  mkRat ((r.distance.den : ℤ) - r.distance.num) r.distance.den

/-- The first `ORDER BY` key of `_vector_search`:
`CASE WHEN vulnerability_id = $2 THEN 0 ELSE 1 END`. -/
def exactRank (vid : Str) (r : Row) : ℕ :=
  if r.vulnerability_id = vid then 0 else 1

/-- The composite `ORDER BY` ordering of `_vector_search`: first the
exact-id case flag, then ascending vector distance. -/
def rowOrder (vid : Str) (a b : Row) : Prop :=
  exactRank vid a < exactRank vid b ∨
    (exactRank vid a = exactRank vid b ∧ a.distance ≤ b.distance)

instance (vid : Str) : DecidableRel (rowOrder vid) := fun a b => by
  unfold rowOrder
  infer_instance

/-- Model of `RetrievalService._vector_search` (retrieval.py, lines
140-186): the SQL filters rows by `vulnerability_id = $2 OR
1 - (embedding <-> $1::vector) >= $3`, orders by the composite key
(`exactRank`, distance) and limits to `top_k` rows. -/
def vectorSearchRows (rows : List Row) (vid : Str) (topK : ℕ) (threshold : ℚ) :
    List Row :=
  (((rows.filter fun r =>
      decide (r.vulnerability_id = vid ∨ threshold ≤ similarityScore r)).insertionSort
        (rowOrder vid)).take topK)

/-- Model of `RetrievalService._infer_source` (retrieval.py, lines
102-111). -/
def inferSource (vid : Str) : Str :=
  if ((strOf "A").isPrefixOf vid || (strOf "A0").isPrefixOf vid)
      && containsSub (strOf ":") vid then strOf "owasp"
  else if (strOf "T").isPrefixOf vid
      && (containsSub (strOf ".") vid || pyIsDigit (vid.drop 1)) then strOf "mitre"
  else if (strOf "CVE-").isPrefixOf (pyUpper vid) then strOf "cve"
  else strOf "custom"

/-- Model of `RetrievalService._enhance_query` (retrieval.py, lines
113-126).  A `None` or empty title is not appended (Python truthiness). -/
def enhanceQuery (vid : Str) (title : Option Str) : Str :=
  let parts :=
    [vid] ++ (match title with
      | some t => if t ≠ [] then [t] else []
      | none => [])
  let parts' :=
    parts ++
      (if inferSource vid = strOf "owasp" then
        [strOf "web application security vulnerability"]
      else if inferSource vid = strOf "mitre" then
        [strOf "attack technique threat"]
      else [])
  joinSpace parts'

/-- The metadata row returned by `_get_vulnerability_info` when the store
has an entry for the id (fields may each be SQL `NULL`). -/
structure VulnInfo where
  title : Option Str
  url : Option Str
  source : Option Str

/-- Model of the `VulnerabilityFinding` record as constructed by
`search_vulnerability_knowledge`. -/
structure Finding where
  id : Str
  source : Str
  title : Option Str
  description : Option Str
deriving DecidableEq, Repr

/-- Model of the `RetrievedContext` record (models.py) as constructed by
`search_vulnerability_knowledge`.  The pydantic collection-size caps and
whitespace stripping of `models.py` are not modelled; no claim here
depends on them. -/
structure RetrievedContext where
  finding : Finding
  retrieved_chunks : List Str
  source_urls : List Str
  similarity_scores : List ℚ
  retrieval_query : Option Str
deriving DecidableEq, Repr

/-- Model of `RetrievalService.search_vulnerability_knowledge`
(retrieval.py, lines 32-81).  The two provider calls are passed as
functions: `embed` models `_generate_embedding` (an OpenAI call that may
raise, re-raised unchanged by the `except` clause) and `vsearch` models
`_vector_search` (a database call that may raise).  `info` is the result
of `_get_vulnerability_info` (`{}` modelled as `none`). -/
def searchVulnerabilityKnowledge
    (embed : Str → Except Str (List ℚ))
    (vsearch : List ℚ → Str → ℕ → ℚ → Except Str (List Row))
    (info : Option VulnInfo)
    (vid : Str) (topK : ℕ) (threshold : ℚ) : Except Str RetrievedContext :=
  let infoTitle := info.bind (·.title)
  let finding : Finding :=
    { id := vid, source := inferSource vid, title := infoTitle, description := none }
  let query := enhanceQuery vid infoTitle
  match embed query with
  | .error e => .error e
  | .ok emb =>
    match vsearch emb vid topK threshold with
    | .error e => .error e
    | .ok chunksData =>
      .ok { finding := finding
            retrieved_chunks := chunksData.map (·.content)
            source_urls :=
              (chunksData.filterMap fun r =>
                r.url.bind fun u => if u ≠ [] then some u else none).dedup
            similarity_scores := chunksData.map similarityScore
            retrieval_query := some query }

/-!
Model of `VulnerabilityAnalysisOrchestrator.analyze_scan_report`
(orchestrator.py, lines 146-245), step 3: the per-identifier analysis
tasks.  Each task either succeeds with an analysis or fails (exception or
`asyncio.TimeoutError`), modelled as `Except`; `analyze` maps an
identifier to the outcome of `asyncio.wait_for(self.analyze_vulnerability
(vuln_id), timeout...)`.
-/

/-- The slice of `AnalyzedVulnerability` the batch claims need. -/
structure Analyzed where
  vulnerability_id : Str
deriving DecidableEq, Repr

/-- Model of the inner `analyze_with_timeout` closure (lines 192-214):
returns `(index, analysis, None)` on success and
`(index, None, {"id": vuln_id, "error": error_msg})` on failure. -/
def analyzeWithTimeout (analyze : Str → Except Str Analyzed) (i : ℕ) (vid : Str) :
    ℕ × Option Analyzed × Option (Str × Str) :=
  match analyze vid with
  | .ok a => (i, some a, none)
  | .error msg => (i, none, some (vid, msg))

/-- The `task_results` list after `asyncio.gather` and the sort by
original index (lines 216-226). -/
def scanTaskResults (analyze : Str → Except Str Analyzed) (findings : List Str) :
    List (ℕ × Option Analyzed × Option (Str × Str)) :=
  ((findings.enum).map fun p => analyzeWithTimeout analyze p.1 p.2).insertionSort
    (fun x y => x.1 ≤ y.1)

/-- The two collections accumulated by the loop of lines 229-233:
successful results and labeled error entries. -/
def scanReportCollect (analyze : Str → Except Str Analyzed) (findings : List Str) :
    List Analyzed × List (Str × Str) :=
  ((scanTaskResults analyze findings).filterMap (·.2.1),
   (scanTaskResults analyze findings).filterMap (·.2.2))

/-- The value `analyze_scan_report` returns to its caller (line 245):
only the `results` list. -/
def analyzeScanReport (analyze : Str → Except Str Analyzed) (findings : List Str) :
    List Analyzed :=
  (scanReportCollect analyze findings).1

/-!
Claims.
-/

/-- Helper: a two-character list is a prefix only if its first character
alone is a prefix. -/
theorem isPrefixOf_two_imp (a b : Char) (l : Str) :
    ([a, b] : Str).isPrefixOf l = true → ([a] : Str).isPrefixOf l = true := by
  cases l with
  | nil => intro h; simp [List.isPrefixOf] at h
  | cons c t =>
    cases t with
    | nil => intro h; simp [List.isPrefixOf] at h
    | cons d u =>
      intro h
      simp [List.isPrefixOf] at h ⊢
      exact h.1

/-- Definition following the amended claim wording for C2: leading
uppercase `A` with a colon gives `owasp`; leading uppercase `T` with a dot
anywhere or an all-digit remainder gives `mitre`; an identifier whose
uppercased form starts with `CVE-` gives `cve`; everything else gives
`custom`.  Only the `CVE-` test is case-insensitive. -/
def inferSourceAmendedSpec (vid : Str) : Str :=
  if (strOf "A").isPrefixOf vid && containsSub (strOf ":") vid then strOf "owasp"
  else if (strOf "T").isPrefixOf vid
      && (containsSub (strOf ".") vid || pyIsDigit (vid.drop 1)) then strOf "mitre"
  else if (strOf "CVE-").isPrefixOf (pyUpper vid) then strOf "cve"
  else strOf "custom"

/-- C2 counterexample: `_infer_source` is NOT case-insensitive for the
OWASP branch: the lowercase variant of `A01:2021` is classified `custom`,
not `owasp`, refuting both the per-shape clause and the claimed
case-invariance at the concrete input `a01:2021`. -/
theorem c2_inferSource_counterexample :
    inferSource (strOf "a01:2021") = strOf "custom" ∧
    inferSource (strOf "A01:2021") = strOf "owasp" ∧
    inferSource (strOf "a01:2021") ≠ inferSource (strOf "A01:2021") := by
  refine ⟨by decide, by decide, by decide⟩

/-- C2 (amended): `_infer_source` classifies case-sensitively for the
OWASP and MITRE branches and case-insensitively only for the `CVE-`
branch; the redundant `startswith(("A", "A0"))` tuple collapses to the
single uppercase-`A` test. -/
theorem c2_inferSource_amended (vid : Str) :
    inferSource vid = inferSourceAmendedSpec vid := by
  unfold inferSource inferSourceAmendedSpec
  cases hA : (strOf "A").isPrefixOf vid with
  | true => simp [hA]
  | false =>
    have hA0 : (strOf "A0").isPrefixOf vid = false := by
      by_contra hcon
      have h0 : (strOf "A0").isPrefixOf vid = true := by
        cases h : (strOf "A0").isPrefixOf vid
        · exact absurd h hcon
        · rfl
      have h1 : (strOf "A").isPrefixOf vid = true :=
        isPrefixOf_two_imp 'A' '0' vid h0
      rw [hA] at h1
      exact Bool.false_ne_true h1
    simp [hA, hA0]

/-- C5: for every splitter and every non-blank text whose estimated token
count is at most `max_tokens`, `split_text` returns exactly the singleton
of the stripped text. -/
theorem c5_splitText_short (sp : Splitter) (text : Str)
    (hnb : pyStrip text ≠ [])
    (hfit : sp.tokenizer.estimateTokens text ≤ sp.maxTokens) :
    splitText sp text = some [pyStrip text] := by
  unfold splitText
  rw [if_neg hnb, if_pos hfit]
  by_cases hmin : sp.minTokens ≤ sp.tokenizer.estimateTokens text
  · rw [if_pos hmin]
  · rw [if_neg hmin, if_pos hnb]

/-- C5 witness: the default splitter keeps `hello world` whole (this is
also the short-text scenario of spec section 8). -/
theorem c5_splitText_short_witness :
    splitText ⟨512, 50, 50, ⟨4⟩⟩ (strOf "hello world") = some [strOf "hello world"] := by
  have h := c5_splitText_short ⟨512, 50, 50, ⟨4⟩⟩ (strOf "hello world")
    (by decide) (by decide)
  rw [h]
  decide

/-- C8: when the embedding call fails, `search_vulnerability_knowledge`
propagates that error unchanged, and its result does not depend on the
vector-search collaborator at all (no vector search is performed and no
`RetrievedContext` is constructed). -/
theorem c8_embedding_error_propagates
    (embed : Str → Except Str (List ℚ))
    (vsearch : List ℚ → Str → ℕ → ℚ → Except Str (List Row))
    (info : Option VulnInfo) (vid : Str) (topK : ℕ) (threshold : ℚ)
    (e : Str)
    (herr : embed (enhanceQuery vid (info.bind (·.title))) = .error e) :
    searchVulnerabilityKnowledge embed vsearch info vid topK threshold = .error e ∧
    (∀ vsearch', searchVulnerabilityKnowledge embed vsearch' info vid topK threshold
      = searchVulnerabilityKnowledge embed vsearch info vid topK threshold) ∧
    (∀ ctx : RetrievedContext,
      searchVulnerabilityKnowledge embed vsearch info vid topK threshold ≠ .ok ctx) := by
  refine ⟨?_, ?_, ?_⟩
  · simp only [searchVulnerabilityKnowledge, herr]
  · intro vsearch'
    simp only [searchVulnerabilityKnowledge, herr]
  · intro ctx
    simp only [searchVulnerabilityKnowledge, herr]
    simp

/-- The `mkRat` form of the similarity score equals `1 - distance`. -/
theorem similarityScore_eq (r : Row) : similarityScore r = 1 - r.distance := by
  unfold similarityScore
  have hd : ((r.distance.den : ℚ)) ≠ 0 := by
    exact_mod_cast r.distance.den_nz
  rw [Rat.mkRat_eq_div]
  push_cast
  rw [sub_div, div_self hd, Rat.num_div_den]

/-- C9: whenever `search_vulnerability_knowledge` returns a
`RetrievedContext`, `retrieved_chunks` and `similarity_scores` have equal
length and are positionwise projections of one and the same ordered row
sequence. -/
theorem c9_chunks_scores_parallel
    (embed : Str → Except Str (List ℚ))
    (vsearch : List ℚ → Str → ℕ → ℚ → Except Str (List Row))
    (info : Option VulnInfo) (vid : Str) (topK : ℕ) (threshold : ℚ)
    (ctx : RetrievedContext)
    (h : searchVulnerabilityKnowledge embed vsearch info vid topK threshold
      = .ok ctx) :
    ctx.retrieved_chunks.length = ctx.similarity_scores.length ∧
    ∃ rowsRes : List Row,
      ctx.retrieved_chunks = rowsRes.map (·.content) ∧
      ctx.similarity_scores = rowsRes.map similarityScore := by
  cases hem : embed (enhanceQuery vid (info.bind fun x => x.title)) with
  | error e =>
    simp only [searchVulnerabilityKnowledge, hem] at h
    exact absurd h (by simp)
  | ok emb =>
    cases hvs : vsearch emb vid topK threshold with
    | error e =>
      simp only [searchVulnerabilityKnowledge, hem, hvs] at h
      exact absurd h (by simp)
    | ok chunksData =>
      simp only [searchVulnerabilityKnowledge, hem, hvs, Except.ok.injEq] at h
      subst h
      refine ⟨by simp, chunksData, rfl, rfl⟩

/-- C9 witness data: a store with one exact-id row. -/
def c9row : Row :=
  ⟨strOf "c1", none, some (strOf "u"), strOf "owasp", strOf "A", mkRat 3 10⟩

/-- C9 witness: a concrete successful retrieval has aligned chunk and
score lists. -/
theorem c9_chunks_scores_parallel_witness :
    (⟨⟨strOf "A", strOf "custom", none, none⟩, [strOf "c1"], [strOf "u"],
      [mkRat 7 10], some (strOf "A")⟩ : RetrievedContext).retrieved_chunks.length
    = (⟨⟨strOf "A", strOf "custom", none, none⟩, [strOf "c1"], [strOf "u"],
      [mkRat 7 10], some (strOf "A")⟩ : RetrievedContext).similarity_scores.length := by
  exact (c9_chunks_scores_parallel
    (fun _ => .ok [1]) (fun _ v k t => .ok (vectorSearchRows [c9row] v k t))
    none (strOf "A") 5 (mkRat 7 10) _ (by decide)).1

/-- The composite ordering of `_vector_search` is transitive. -/
instance (vid : Str) : IsTrans Row (rowOrder vid) := by
  constructor
  rintro a b c (h1 | ⟨e1, d1⟩) (h2 | ⟨e2, d2⟩)
  · exact Or.inl (h1.trans h2)
  · exact Or.inl (e2 ▸ h1)
  · exact Or.inl (e1 ▸ h2)
  · exact Or.inr ⟨e1.trans e2, d1.trans d2⟩

/-- The composite ordering of `_vector_search` is total. -/
instance (vid : Str) : IsTotal Row (rowOrder vid) := by
  constructor
  intro a b
  rcases Nat.lt_trichotomy (exactRank vid a) (exactRank vid b) with h | h | h
  · exact Or.inl (Or.inl h)
  · rcases le_total a.distance b.distance with hd | hd
    · exact Or.inl (Or.inr ⟨h, hd⟩)
    · exact Or.inr (Or.inr ⟨h.symm, hd⟩)
  · exact Or.inr (Or.inl h)

/-- C1: `_vector_search` (i) returns a row only if it is an exact-id match
or its similarity is at least the threshold, (ii) lists every exact-id row
before every non-exact row and is otherwise in ascending distance order,
and (iii) returns at most `top_k` rows. -/
theorem c1_vector_search (rows : List Row) (vid : Str) (topK : ℕ) (threshold : ℚ) :
    (∀ r ∈ vectorSearchRows rows vid topK threshold,
        r.vulnerability_id = vid ∨ threshold ≤ similarityScore r) ∧
    List.Pairwise (fun a b =>
        (a.vulnerability_id = vid ∧ b.vulnerability_id ≠ vid) ∨
        ((a.vulnerability_id = vid ↔ b.vulnerability_id = vid) ∧
          a.distance ≤ b.distance))
      (vectorSearchRows rows vid topK threshold) ∧
    (vectorSearchRows rows vid topK threshold).length ≤ topK := by
  refine ⟨?_, ?_, ?_⟩
  · intro r hr
    unfold vectorSearchRows at hr
    have h1 := List.mem_of_mem_take hr
    have h2 := (List.mem_insertionSort (rowOrder vid)).1 h1
    have h3 := (List.mem_filter.1 h2).2
    exact of_decide_eq_true h3
  · have hs : List.Sorted (rowOrder vid)
        ((rows.filter fun r =>
          decide (r.vulnerability_id = vid ∨ threshold ≤ similarityScore r)).insertionSort
            (rowOrder vid)) :=
      List.sorted_insertionSort (rowOrder vid) _
    have hp : List.Pairwise (rowOrder vid) (vectorSearchRows rows vid topK threshold) :=
      hs.sublist (List.take_sublist _ _)
    refine hp.imp ?_
    intro a b hab
    rcases hab with h | ⟨e, d⟩
    · unfold exactRank at h
      by_cases ha : a.vulnerability_id = vid <;>
        by_cases hb : b.vulnerability_id = vid <;>
        simp [ha, hb] at h ⊢
    · unfold exactRank at e
      by_cases ha : a.vulnerability_id = vid <;>
        by_cases hb : b.vulnerability_id = vid <;>
        simp [ha, hb] at e ⊢ <;> exact d
  · unfold vectorSearchRows
    exact List.length_take_le _ _

/-- C1 witness data: an exact-id row whose similarity 3/10 is below the
0.7 threshold (the spec section 8 scenario). -/
def w1row : Row :=
  ⟨strOf "c1", none, some (strOf "u1"), strOf "owasp", strOf "A01:2021", mkRat 7 10⟩

/-- C1 witness data: a non-matching row with similarity 9/10. -/
def w2row : Row :=
  ⟨strOf "c2", none, some (strOf "u2"), strOf "owasp", strOf "OTHER", mkRat 1 10⟩

/-- C1 witness: in a concrete store the exact-id row is returned (ahead of
the higher-similarity unrelated row) and satisfies the inclusion
condition. -/
theorem c1_vector_search_witness :
    w1row ∈ vectorSearchRows [w2row, w1row] (strOf "A01:2021") 5 (mkRat 7 10) ∧
    (w1row.vulnerability_id = strOf "A01:2021" ∨
      mkRat 7 10 ≤ similarityScore w1row) := by
  refine ⟨by decide, ?_⟩
  exact (c1_vector_search [w2row, w1row] (strOf "A01:2021") 5 (mkRat 7 10)).1
    w1row (by decide)

/-- The index component of an `analyze_with_timeout` task result is the
task's index. -/
theorem analyzeWithTimeout_fst (analyze : Str → Except Str Analyzed)
    (i : ℕ) (vid : Str) : (analyzeWithTimeout analyze i vid).1 = i := by
  cases h : analyze vid <;> simp [analyzeWithTimeout, h]

/-- The task-result list is already sorted by index before the sort. -/
theorem sorted_enumFrom_tasks (analyze : Str → Except Str Analyzed) :
    ∀ (n : ℕ) (l : List Str),
      List.Sorted (fun x y => x.1 ≤ y.1)
        ((List.enumFrom n l).map fun p => analyzeWithTimeout analyze p.1 p.2) := by
  intro n l
  induction l generalizing n with
  | nil => simp
  | cons v t ih =>
    simp only [List.enumFrom, List.map_cons]
    rw [List.sorted_cons]
    refine ⟨?_, ih (n + 1)⟩
    intro b hb
    obtain ⟨p, hp, rfl⟩ := List.mem_map.1 hb
    obtain ⟨q, r⟩ := p
    have hq : n + 1 ≤ q := (List.mem_enumFrom hp).1
    rw [analyzeWithTimeout_fst, analyzeWithTimeout_fst]
    omega

/-- Sorting by index is the identity on the gathered task results. -/
theorem scanTaskResults_eq (analyze : Str → Except Str Analyzed)
    (findings : List Str) :
    scanTaskResults analyze findings
      = (findings.enum).map fun p => analyzeWithTimeout analyze p.1 p.2 := by
  unfold scanTaskResults
  apply List.Sorted.insertionSort_eq
  exact sorted_enumFrom_tasks analyze 0 findings

/-- Filtering an enumerated list with an index-blind function ignores the
indices. -/
theorem filterMap_enumFrom_snd {β : Type} (k : Str → Option β) :
    ∀ (n : ℕ) (l : List Str),
      (List.enumFrom n l).filterMap (fun p => k p.2) = l.filterMap k := by
  intro n l
  induction l generalizing n with
  | nil => rfl
  | cons v t ih =>
    simp only [List.enumFrom, List.filterMap_cons]
    cases k v <;> simp [ih (n + 1)]

/-- C3 (amended): `analyze_scan_report` internally accumulates successes
and labeled failures in two parallel collections, in extraction order —
every successful identifier yields exactly its analysis and every failed
identifier yields exactly one `(id, reason)` entry, so a failure never
discards sibling successes — but the value surfaced to the caller is only
the success list; the failure list is logged, not returned. -/
theorem c3_scan_report_amended (analyze : Str → Except Str Analyzed)
    (findings : List Str) :
    analyzeScanReport analyze findings = (scanReportCollect analyze findings).1 ∧
    (scanReportCollect analyze findings).1
      = findings.filterMap (fun v => (analyze v).toOption) ∧
    (scanReportCollect analyze findings).2
      = findings.filterMap (fun v =>
          match analyze v with
          | .ok _ => none
          | .error msg => some (v, msg)) := by
  refine ⟨rfl, ?_, ?_⟩
  · show (scanTaskResults analyze findings).filterMap (·.2.1) = _
    rw [scanTaskResults_eq, List.filterMap_map]
    have hfun : ((fun x : ℕ × Option Analyzed × Option (Str × Str) => x.2.1) ∘
        (fun p : ℕ × Str => analyzeWithTimeout analyze p.1 p.2))
        = fun p : ℕ × Str => (analyze p.2).toOption := by
      funext p
      cases h : analyze p.2 <;> simp [analyzeWithTimeout, h, Except.toOption]
    rw [hfun]
    rw [show findings.enum = List.enumFrom 0 findings from rfl]
    exact filterMap_enumFrom_snd (fun v => (analyze v).toOption) 0 findings
  · show (scanTaskResults analyze findings).filterMap (·.2.2) = _
    rw [scanTaskResults_eq, List.filterMap_map]
    have hfun : ((fun x : ℕ × Option Analyzed × Option (Str × Str) => x.2.2) ∘
        (fun p : ℕ × Str => analyzeWithTimeout analyze p.1 p.2))
        = fun p : ℕ × Str =>
            (match analyze p.2 with
            | .ok _ => none
            | .error msg => some (p.2, msg)) := by
      funext p
      cases h : analyze p.2 <;> simp [analyzeWithTimeout, h]
    rw [hfun]
    rw [show findings.enum = List.enumFrom 0 findings from rfl]
    exact filterMap_enumFrom_snd
      (fun v => match analyze v with
        | .ok _ => none
        | .error msg => some (v, msg)) 0 findings

/-- C3 counterexample data: analysis succeeds for `A`, fails for `B`. -/
def c3analyze : Str → Except Str Analyzed :=
  fun v => if v = strOf "A" then .ok ⟨strOf "A"⟩ else .error (strOf "boom")

/-- C3 counterexample: in a batch where `B` fails, the value surfaced to
the caller is only the success list `[A]`; the labeled failure for `B`
exists only in the internal (logged) error collection and appears nowhere
in the surfaced outcome — refuting the claim that the surfaced outcome
carries a failure entry per failed identifier. -/
theorem c3_scan_report_counterexample :
    analyzeScanReport c3analyze [strOf "A", strOf "B"] = [⟨strOf "A"⟩] ∧
    (scanReportCollect c3analyze [strOf "A", strOf "B"]).2
      = [(strOf "B", strOf "boom")] ∧
    ¬ ∃ x ∈ analyzeScanReport c3analyze [strOf "A", strOf "B"],
        x.vulnerability_id = strOf "B" := by
  refine ⟨by decide, by decide, ?_⟩
  rintro ⟨x, hx, hid⟩
  have h1 : analyzeScanReport c3analyze [strOf "A", strOf "B"] = [⟨strOf "A"⟩] := by
    decide
  rw [h1] at hx
  have hxa : x = ⟨strOf "A"⟩ := by simpa using hx
  rw [hxa] at hid
  exact absurd hid (by decide)

/-- C8 witness: a concrete failing embedding provider propagates its error
through a concrete retrieval call. -/
theorem c8_embedding_error_propagates_witness :
    searchVulnerabilityKnowledge (fun _ => .error (strOf "api down"))
      (fun _ _ _ _ => .ok []) none (strOf "A") 5 (mkRat 7 10)
      = .error (strOf "api down") := by
  exact (c8_embedding_error_propagates (fun _ => .error (strOf "api down"))
    (fun _ _ _ _ => .ok []) none (strOf "A") 5 (mkRat 7 10) (strOf "api down")
    (by decide)).1

/-- The overlap flags of the chunk records produced by `chunk_document`
are determined by the chunk position and `overlap_tokens`. -/
theorem chunkDocument_flags (text : Str) (metadata : DocMetadata)
    (maxTokens minTokens overlapTokens : ℤ) (l : List Chunk)
    (h : chunkDocument text metadata maxTokens minTokens overlapTokens = some l) :
    ∀ i c, l[i]? = some c →
      c.overlap_pre = decide (0 < i ∧ 0 < overlapTokens) ∧
      c.overlap_post = decide (i < l.length - 1 ∧ 0 < overlapTokens) := by
  by_cases hb : pyStrip text = []
  · simp only [chunkDocument, hb, reduceIte, Option.some.injEq] at h
    subst h
    intro i c hc
    simp at hc
  · cases hsp : splitText
        { maxTokens := maxTokens, minTokens := minTokens,
          overlapTokens := overlapTokens, tokenizer := ⟨4⟩ } text with
    | none =>
      simp only [chunkDocument, hb, reduceIte, hsp] at h
      exact absurd h (by simp)
    | some tc0 =>
      by_cases htc : tc0 = []
      · simp only [chunkDocument, hb, hsp, htc, reduceIte,
          Option.some.injEq] at h
        subst h
        intro i c hc
        simp at hc
      · simp only [chunkDocument, hb, hsp, htc, reduceIte,
          Option.some.injEq] at h
        subst h
        intro i c hc
        rw [List.length_map, List.enum_length]
        rw [List.getElem?_map, List.getElem?_enum] at hc
        cases hx : (if 1 < tc0.length ∧ 0 < overlapTokens then
            createOverlappingChunks
              { maxTokens := maxTokens, minTokens := minTokens,
                overlapTokens := overlapTokens, tokenizer := ⟨4⟩ } tc0
          else tc0)[i]? with
        | none => rw [hx] at hc; simp at hc
        | some x =>
          rw [hx] at hc
          simp only [Option.map_some'] at hc
          rw [← Option.some.inj hc]
          exact ⟨rfl, rfl⟩

/-- C7: in a `chunk_document` run with more than one chunk and positive
`overlap_tokens`, the first chunk has `overlap_pre = False`,
`overlap_post = True`, the last the reverse, and all middle chunks have
both `True`; with `overlap_tokens = 0` every chunk has both `False`. -/
theorem c7_overlap_flags (text : Str) (metadata : DocMetadata)
    (maxTokens minTokens overlapTokens : ℤ) (l : List Chunk)
    (h : chunkDocument text metadata maxTokens minTokens overlapTokens = some l) :
    ((1 < l.length ∧ 0 < overlapTokens) →
      (∀ c, l.head? = some c → c.overlap_pre = false ∧ c.overlap_post = true) ∧
      (∀ c, l.getLast? = some c → c.overlap_pre = true ∧ c.overlap_post = false) ∧
      (∀ i c, 0 < i → i < l.length - 1 → l[i]? = some c →
        c.overlap_pre = true ∧ c.overlap_post = true)) ∧
    (overlapTokens = 0 →
      ∀ c ∈ l, c.overlap_pre = false ∧ c.overlap_post = false) := by
  have key := chunkDocument_flags text metadata maxTokens minTokens overlapTokens l h
  constructor
  · rintro ⟨hn, hot⟩
    refine ⟨?_, ?_, ?_⟩
    · intro c hcq
      rw [List.head?_eq_getElem?] at hcq
      obtain ⟨h1, h2⟩ := key 0 c hcq
      constructor
      · rw [h1]
        apply decide_eq_false
        rintro ⟨hx, _⟩
        omega
      · simp only [h2, decide_eq_true_eq]
        exact ⟨by omega, hot⟩
    · intro c hcq
      rw [List.getLast?_eq_getElem?] at hcq
      obtain ⟨h1, h2⟩ := key (l.length - 1) c hcq
      constructor
      · simp only [h1, decide_eq_true_eq]
        exact ⟨by omega, hot⟩
      · rw [h2]
        apply decide_eq_false
        rintro ⟨hx, _⟩
        omega
    · intro i c h0 hn1 hcq
      obtain ⟨h1, h2⟩ := key i c hcq
      exact ⟨by simp only [h1, decide_eq_true_eq]; exact ⟨h0, hot⟩,
             by simp only [h2, decide_eq_true_eq]; exact ⟨hn1, hot⟩⟩
  · intro hot c hcmem
    obtain ⟨i, hcq⟩ := List.mem_iff_getElem?.1 hcmem
    obtain ⟨h1, h2⟩ := key i c hcq
    constructor
    · rw [h1]
      apply decide_eq_false
      rintro ⟨_, hx⟩
      omega
    · rw [h2]
      apply decide_eq_false
      rintro ⟨_, hx⟩
      omega

/-- C7 witness: a concrete two-chunk run with overlap; the first chunk has
`overlap_pre = False` and `overlap_post = True`. -/
theorem c7_overlap_flags_witness :
    (⟨strOf "aa bb", strOf "X", strOf "t", strOf "s", none, 0, 1,
      false, true⟩ : Chunk).overlap_pre = false ∧
    (⟨strOf "aa bb", strOf "X", strOf "t", strOf "s", none, 0, 1,
      false, true⟩ : Chunk).overlap_post = true := by
  have h := c7_overlap_flags (strOf "aa bb cc") ⟨strOf "X", strOf "t", strOf "s", none⟩
    1 1 1
    [⟨strOf "aa bb", strOf "X", strOf "t", strOf "s", none, 0, 1, false, true⟩,
     ⟨strOf "bb cc", strOf "X", strOf "t", strOf "s", none, 1, 1, true, false⟩]
    (by decide)
  exact (h.1 (by decide)).1 _ rfl

/-- A property preserved by every fold step holds for the fold result. -/
theorem foldl_preserve {α β : Type} {P : β → Prop} (step : β → α → β)
    (hstep : ∀ b a, P b → P (step b a)) :
    ∀ (l : List α) (b : β), P b → P (l.foldl step b) := by
  intro l
  induction l with
  | nil => intro b hb; exact hb
  | cons a t ih => intro b hb; exact ih _ (hstep b a hb)

/-- Every chunk produced by `_character_split` is nonblank. -/
theorem characterSplit_nonblank (sp : Splitter) (text : Str) (l : List Str)
    (h : characterSplit sp text = some l) : ∀ c ∈ l, Nonblank c := by
  simp only [characterSplit] at h
  by_cases h0 : sp.tokenizer.estimateCharsForTokens sp.maxTokens = 0
  · rw [if_pos h0] at h
    exact absurd h (by simp)
  · rw [if_neg h0] at h
    by_cases hneg : sp.tokenizer.estimateCharsForTokens sp.maxTokens < 0
    · rw [if_pos hneg] at h
      simp only [Option.some.injEq] at h
      subst h
      intro c hc
      simp at hc
    · rw [if_neg hneg] at h
      simp only [Option.some.injEq] at h
      subst h
      intro c hc
      obtain ⟨hmem, hne⟩ := List.mem_filter.1 hc
      obtain ⟨i, _, rfl⟩ := List.mem_map.1 hmem
      exact nonblank_of_pyStrip_ne_nil (of_decide_eq_true hne)

/-- One recombination step preserves the all-chunks-nonblank invariant,
provided the recursive splitter for oversized parts yields only nonblank
chunks. -/
theorem recombineStep_nonblank (sp : Splitter)
    (splitRest : Str → Option (List Str)) (sep : Str) (n : ℕ)
    (hsub : ∀ t l', splitRest t = some l' → ∀ c ∈ l', Nonblank c)
    (st : Option (List Str × Str)) (a : ℕ × Str)
    (hP : ∀ chunks current, st = some (chunks, current) → ∀ c ∈ chunks, Nonblank c) :
    ∀ chunks current,
      recombineStep sp splitRest sep n st a = some (chunks, current) →
      ∀ c ∈ chunks, Nonblank c := by
  obtain ⟨i, part⟩ := a
  cases st with
  | none =>
    intro ch cur h'
    exact absurd h' (by simp [recombineStep])
  | some pr =>
    obtain ⟨chunks, current⟩ := pr
    intro ch cur h'
    simp only [recombineStep] at h'
    by_cases h1 : sp.tokenizer.estimateTokens
        (current ++ (part ++ if i < n - 1 then sep else [])) ≤ sp.maxTokens
    · rw [if_pos h1] at h'
      simp only [Option.some.injEq, Prod.mk.injEq] at h'
      obtain ⟨hch, _⟩ := h'
      subst hch
      exact hP chunks current rfl
    · rw [if_neg h1] at h'
      have hch' : ∀ c ∈ (if pyStrip current ≠ [] then
          chunks ++ [pyStrip current] else chunks), Nonblank c := by
        by_cases hcur : pyStrip current ≠ []
        · rw [if_pos hcur]
          intro c hc
          rcases List.mem_append.1 hc with hcl | hcr
          · exact hP chunks current rfl c hcl
          · rw [List.mem_singleton.1 hcr]
            exact nonblank_of_pyStrip_ne_nil hcur
        · rw [if_neg hcur]
          exact hP chunks current rfl
      by_cases h2 : sp.maxTokens < sp.tokenizer.estimateTokens
          (part ++ if i < n - 1 then sep else [])
      · rw [if_pos h2] at h'
        cases hsplit : splitRest (part ++ if i < n - 1 then sep else []) with
        | none =>
          rw [hsplit] at h'
          exact absurd h' (by simp)
        | some sub =>
          rw [hsplit] at h'
          simp only [Option.some.injEq, Prod.mk.injEq] at h'
          obtain ⟨hch, _⟩ := h'
          subst hch
          intro c hc
          rcases List.mem_append.1 hc with hcl | hcr
          · exact hch' c hcl
          · exact hsub _ sub hsplit c hcr
      · rw [if_neg h2] at h'
        simp only [Option.some.injEq, Prod.mk.injEq] at h'
        obtain ⟨hch, _⟩ := h'
        subst hch
        exact hch'

/-- Every chunk produced by `_recursive_split` is nonblank, along every
separator of the cascade. -/
theorem recursiveSplit_nonblank (sp : Splitter) :
    ∀ (seps : List Str) (text : Str) (l : List Str),
      recursiveSplit sp seps text = some l → ∀ c ∈ l, Nonblank c := by
  intro seps
  induction seps with
  | nil =>
    intro text l h
    rw [recursiveSplit] at h
    exact characterSplit_nonblank sp text l h
  | cons sep rest ih =>
    intro text l h
    rw [recursiveSplit] at h
    by_cases hsep : sep = []
    · rw [if_pos hsep] at h
      exact characterSplit_nonblank sp text l h
    · rw [if_neg hsep] at h
      by_cases hcont : containsSub sep text = true
      · rw [if_neg (by simp [hcont])] at h
        by_cases hlen : (pySplit sep text).length = 1
        · rw [if_pos hlen] at h
          exact ih text l h
        · rw [if_neg hlen] at h
          cases hf : ((pySplit sep text).enum.foldl
              (recombineStep sp (fun t => recursiveSplit sp rest t) sep
                (pySplit sep text).length)
              (some ([], []))) with
          | none =>
            rw [hf] at h
            exact absurd h (by simp)
          | some st =>
            obtain ⟨chunks, current⟩ := st
            rw [hf] at h
            simp only [Option.some.injEq] at h
            subst h
            have hinv : ∀ ch cur,
                ((pySplit sep text).enum.foldl
                  (recombineStep sp (fun t => recursiveSplit sp rest t) sep
                    (pySplit sep text).length)
                  (some ([], []))) = some (ch, cur) →
                ∀ c ∈ ch, Nonblank c := by
              apply foldl_preserve
                (P := fun st => ∀ ch cur, st = some (ch, cur) → ∀ c ∈ ch, Nonblank c)
              · intro b a hPb
                exact recombineStep_nonblank sp _ sep _ (fun t l' ht => ih t l' ht) b a hPb
              · intro ch cur h'
                simp only [Option.some.injEq, Prod.mk.injEq] at h'
                obtain ⟨h1, _⟩ := h'
                subst h1
                intro c hc
                simp at hc
            have hchunks := hinv chunks current hf
            intro c hc
            obtain ⟨hmem, _⟩ := List.mem_filter.1 hc
            by_cases hcur : pyStrip current ≠ []
            · rw [if_pos hcur] at hmem
              rcases List.mem_append.1 hmem with hcl | hcr
              · exact hchunks c hcl
              · rw [List.mem_singleton.1 hcr]
                exact nonblank_of_pyStrip_ne_nil hcur
            · rw [if_neg hcur] at hmem
              exact hchunks c hmem
      · rw [if_pos (by simp [hcont])] at h
        exact ih text l h

/-- C6: no chunk returned by `split_text` is empty or whitespace-only,
along every path of the separator cascade, the greedy recombination and
the character-level fallback. -/
theorem c6_splitText_nonblank (sp : Splitter) (text : Str) (l : List Str)
    (h : splitText sp text = some l) : ∀ c ∈ l, Nonblank c := by
  simp only [splitText] at h
  by_cases hb : pyStrip text = []
  · rw [if_pos hb] at h
    simp only [Option.some.injEq] at h
    subst h
    intro c hc
    simp at hc
  · rw [if_neg hb] at h
    by_cases hfit : sp.tokenizer.estimateTokens text ≤ sp.maxTokens
    · rw [if_pos hfit] at h
      have hone : l = [pyStrip text] := by
        by_cases hmin : sp.minTokens ≤ sp.tokenizer.estimateTokens text
        · rw [if_pos hmin] at h
          exact (Option.some.inj h).symm
        · rw [if_neg hmin, if_pos hb] at h
          exact (Option.some.inj h).symm
      subst hone
      intro c hc
      rw [List.mem_singleton.1 hc]
      exact nonblank_of_pyStrip_ne_nil hb
    · rw [if_neg hfit] at h
      exact recursiveSplit_nonblank sp separatorCascade text l h

/-- C6 witness: a concrete split whose first chunk the theorem certifies
nonblank. -/
theorem c6_splitText_nonblank_witness :
    splitText ⟨1, 1, 1, ⟨4⟩⟩ (strOf "aa bb cc")
      = some [strOf "aa bb", strOf "cc"] ∧
    Nonblank (strOf "aa bb") := by
  refine ⟨by decide, ?_⟩
  exact c6_splitText_nonblank ⟨1, 1, 1, ⟨4⟩⟩ (strOf "aa bb cc")
    [strOf "aa bb", strOf "cc"] (by decide) (strOf "aa bb") (by decide)

/-- With a positive character budget, `_character_split` always returns. -/
theorem characterSplit_isSome (sp : Splitter) (text : Str)
    (h1 : 1 ≤ sp.tokenizer.estimateCharsForTokens sp.maxTokens) :
    (characterSplit sp text).isSome = true := by
  simp only [characterSplit]
  rw [if_neg (by omega), if_neg (by omega)]
  rfl

/-- With a positive character budget, one recombination step keeps the
fold state defined, provided the recursive splitter for oversized parts
always returns. -/
theorem recombineStep_isSome (sp : Splitter)
    (splitRest : Str → Option (List Str)) (sep : Str) (n : ℕ)
    (hsub : ∀ t, (splitRest t).isSome = true)
    (st : Option (List Str × Str)) (a : ℕ × Str)
    (hP : st.isSome = true) :
    (recombineStep sp splitRest sep n st a).isSome = true := by
  obtain ⟨i, part⟩ := a
  cases st with
  | none => simp at hP
  | some pr =>
    obtain ⟨chunks, current⟩ := pr
    simp only [recombineStep]
    by_cases h1 : sp.tokenizer.estimateTokens
        (current ++ (part ++ if i < n - 1 then sep else [])) ≤ sp.maxTokens
    · rw [if_pos h1]
      rfl
    · rw [if_neg h1]
      by_cases h2 : sp.maxTokens < sp.tokenizer.estimateTokens
          (part ++ if i < n - 1 then sep else [])
      · rw [if_pos h2]
        cases hsplit : splitRest (part ++ if i < n - 1 then sep else []) with
        | none =>
          have := hsub (part ++ if i < n - 1 then sep else [])
          rw [hsplit] at this
          simp at this
        | some sub => rfl
      · rw [if_neg h2]
        rfl

/-- With a positive character budget, `_recursive_split` always returns,
for every separator suffix. -/
theorem recursiveSplit_isSome (sp : Splitter)
    (h1 : 1 ≤ sp.tokenizer.estimateCharsForTokens sp.maxTokens) :
    ∀ (seps : List Str) (text : Str),
      (recursiveSplit sp seps text).isSome = true := by
  intro seps
  induction seps with
  | nil =>
    intro text
    rw [recursiveSplit]
    exact characterSplit_isSome sp text h1
  | cons sep rest ih =>
    intro text
    rw [recursiveSplit]
    by_cases hsep : sep = []
    · rw [if_pos hsep]
      exact characterSplit_isSome sp text h1
    · rw [if_neg hsep]
      by_cases hcont : containsSub sep text = true
      · rw [if_neg (by simp [hcont])]
        by_cases hlen : (pySplit sep text).length = 1
        · rw [if_pos hlen]
          exact ih text
        · rw [if_neg hlen]
          have hfold : (((pySplit sep text).enum.foldl
              (recombineStep sp (fun t => recursiveSplit sp rest t) sep
                (pySplit sep text).length)
              (some ([], [])))).isSome = true := by
            apply foldl_preserve
              (P := fun st : Option (List Str × Str) => st.isSome = true)
            · intro b a hPb
              exact recombineStep_isSome sp _ sep _ (fun t => ih t) b a hPb
            · rfl
          cases hf : ((pySplit sep text).enum.foldl
              (recombineStep sp (fun t => recursiveSplit sp rest t) sep
                (pySplit sep text).length)
              (some ([], []))) with
          | none => rw [hf] at hfold; simp at hfold
          | some st =>
            obtain ⟨chunks, current⟩ := st
            rfl
      · rw [if_pos (by simp [hcont])]
        exact ih text

/-- C10: `split_text` returns normally on every input whenever the
character budget `estimate_chars_for_tokens(max_tokens)` is at least 1;
and with `max_tokens = 0` (default estimator) a non-blank input that
reaches the character-level fallback makes `_character_split` hit the
zero-stride `range`, so the call raises instead of returning. -/
theorem c10_splitText_totality :
    (∀ (sp : Splitter) (text : Str),
        1 ≤ sp.tokenizer.estimateCharsForTokens sp.maxTokens →
        (splitText sp text).isSome = true) ∧
    splitText ⟨0, 1, 1, ⟨4⟩⟩ (strOf "abcdefgh") = none := by
  constructor
  · intro sp text h1
    simp only [splitText]
    by_cases hb : pyStrip text = []
    · rw [if_pos hb]
      rfl
    · rw [if_neg hb]
      by_cases hfit : sp.tokenizer.estimateTokens text ≤ sp.maxTokens
      · rw [if_pos hfit]
        by_cases hmin : sp.minTokens ≤ sp.tokenizer.estimateTokens text
        · rw [if_pos hmin]
          rfl
        · rw [if_neg hmin, if_pos hb]
          rfl
      · rw [if_neg hfit]
        exact recursiveSplit_isSome sp h1 separatorCascade text
  · decide

/-- C10 witness: the default splitter (budget `2048 ≥ 1`) returns on a
concrete input. -/
theorem c10_splitText_totality_witness :
    1 ≤ (⟨512, 50, 50, ⟨4⟩⟩ : Splitter).tokenizer.estimateCharsForTokens
        (⟨512, 50, 50, ⟨4⟩⟩ : Splitter).maxTokens ∧
    (splitText ⟨512, 50, 50, ⟨4⟩⟩ (strOf "abcdefgh")).isSome = true := by
  refine ⟨by decide, ?_⟩
  exact c10_splitText_totality.1 ⟨512, 50, 50, ⟨4⟩⟩ (strOf "abcdefgh") (by decide)

/-- C4 counterexample data: overlap of one token (four characters) with a
previous chunk of only two characters. -/
def c4sp : Splitter := ⟨512, 50, 1, ⟨4⟩⟩

/-- C4 counterexample: with `overlap_tokens = 1 > 0` and chunks
`["ab", "cd"]`, the second chunk is returned unchanged — nothing is
prepended because the previous chunk is not longer than the overlap
character budget — refuting the claim that every chunk after the first is
the original prepended with a suffix of its predecessor. -/
theorem c4_overlap_counterexample :
    createOverlappingChunks c4sp [strOf "ab", strOf "cd"]
      = [strOf "ab", strOf "cd"] ∧
    ¬ ∃ p : Str, p ≠ [] ∧
      (createOverlappingChunks c4sp [strOf "ab", strOf "cd"])[1]?
        = some (p ++ strOf "cd") := by
  refine ⟨by decide, ?_⟩
  rintro ⟨p, hp, he⟩
  have h1 : (createOverlappingChunks c4sp [strOf "ab", strOf "cd"])[1]?
      = some (strOf "cd") := by decide
  rw [h1] at he
  have h2 : strOf "cd" = p ++ strOf "cd" := Option.some.inj he
  have h3 : p.length = 0 := by
    have hl := congrArg List.length h2
    rw [List.length_append] at hl
    omega
  exact hp (List.length_eq_zero.1 h3)

/-- C4 (amended): `create_overlapping_chunks` preserves the list length,
returns lists of length at most one unchanged and never changes the first
chunk; a chunk after the first is prepended (joined by a single space)
with a suffix of the previous chunk of at most `overlap_chars` characters
only when the previous chunk is strictly longer than `overlap_chars` (the
estimator conversion of `overlap_tokens`) and `overlap_chars` is
positive; otherwise that chunk too is returned unchanged. -/
theorem c4_overlap_amended (sp : Splitter) (chunks : List Str) :
    (createOverlappingChunks sp chunks).length = chunks.length ∧
    (chunks.length ≤ 1 → createOverlappingChunks sp chunks = chunks) ∧
    (createOverlappingChunks sp chunks).head? = chunks.head? ∧
    (∀ i prevC c, 1 ≤ i → chunks[i - 1]? = some prevC → chunks[i]? = some c →
      (¬ (0 < sp.tokenizer.estimateCharsForTokens sp.overlapTokens ∧
          sp.tokenizer.estimateCharsForTokens sp.overlapTokens < (prevC.length : ℤ)) →
        (createOverlappingChunks sp chunks)[i]? = some c) ∧
      ((0 < sp.tokenizer.estimateCharsForTokens sp.overlapTokens ∧
          sp.tokenizer.estimateCharsForTokens sp.overlapTokens < (prevC.length : ℤ)) →
        ∃ s : Str, s <:+ prevC ∧
          (s.length : ℤ) ≤ sp.tokenizer.estimateCharsForTokens sp.overlapTokens ∧
          (createOverlappingChunks sp chunks)[i]? = some (s ++ ' ' :: c))) := by
  by_cases hlen : chunks.length ≤ 1
  · unfold createOverlappingChunks
    rw [if_pos hlen]
    refine ⟨rfl, fun _ => rfl, rfl, ?_⟩
    intro i prevC c h1 hp hc
    obtain ⟨hi, _⟩ := List.getElem?_eq_some.1 hc
    omega
  · unfold createOverlappingChunks
    rw [if_neg hlen]
    refine ⟨by simp, fun hcontra => absurd hcontra hlen, ?_, ?_⟩
    · rw [List.head?_eq_getElem?, List.head?_eq_getElem?, List.getElem?_map,
        List.getElem?_enum]
      cases hx : chunks[0]? with
      | none => rfl
      | some x => simp
    · intro i prevC c h1 hp hc
      have hget : chunks.get? (i - 1) = some prevC := by
        rw [List.get?_eq_getElem?]
        exact hp
      have hmapped : (chunks.enum.map fun p =>
          (if 0 < p.1 ∧ 0 < sp.tokenizer.estimateCharsForTokens sp.overlapTokens then
            match chunks.get? (p.1 - 1) with
            | none => p.2
            | some prevChunk =>
              if sp.tokenizer.estimateCharsForTokens sp.overlapTokens
                  < (prevChunk.length : ℤ) then
                let ovWindow := prevChunk.drop (prevChunk.length -
                  (sp.tokenizer.estimateCharsForTokens sp.overlapTokens).toNat)
                let spacePos := pyFindSpace ovWindow
                let ovTrimmed :=
                  if 0 < spacePos then ovWindow.drop (spacePos.toNat + 1) else ovWindow
                ovTrimmed ++ ' ' :: p.2
              else p.2
          else p.2))[i]?
          = some (if 0 < i ∧ 0 < sp.tokenizer.estimateCharsForTokens sp.overlapTokens then
            match chunks.get? (i - 1) with
            | none => c
            | some prevChunk =>
              if sp.tokenizer.estimateCharsForTokens sp.overlapTokens
                  < (prevChunk.length : ℤ) then
                let ovWindow := prevChunk.drop (prevChunk.length -
                  (sp.tokenizer.estimateCharsForTokens sp.overlapTokens).toNat)
                let spacePos := pyFindSpace ovWindow
                let ovTrimmed :=
                  if 0 < spacePos then ovWindow.drop (spacePos.toNat + 1) else ovWindow
                ovTrimmed ++ ' ' :: c
              else c
          else c) := by
        rw [List.getElem?_map, List.getElem?_enum, hc]
        rfl
      simp only [hget] at hmapped
      constructor
      · intro hnot
        rw [hmapped]
        by_cases hoc : 0 < sp.tokenizer.estimateCharsForTokens sp.overlapTokens
        · rw [if_pos ⟨by omega, hoc⟩, if_neg (by tauto)]
        · rw [if_neg (by tauto)]
      · rintro ⟨hoc, hlonger⟩
        rw [hmapped, if_pos ⟨by omega, hoc⟩, if_pos hlonger]
        have hwin : (prevC.drop (prevC.length -
            (sp.tokenizer.estimateCharsForTokens sp.overlapTokens).toNat)).length
            = (sp.tokenizer.estimateCharsForTokens sp.overlapTokens).toNat := by
          rw [List.length_drop]
          omega
        refine ⟨_, ?_, ?_, rfl⟩
        · refine List.IsSuffix.trans ?_
            (List.drop_suffix (prevC.length -
              (sp.tokenizer.estimateCharsForTokens sp.overlapTokens).toNat) prevC)
          by_cases hsp2 : 0 < pyFindSpace (prevC.drop (prevC.length -
              (sp.tokenizer.estimateCharsForTokens sp.overlapTokens).toNat))
          · rw [if_pos hsp2]
            exact List.drop_suffix _ _
          · rw [if_neg hsp2]
        · by_cases hsp2 : 0 < pyFindSpace (prevC.drop (prevC.length -
              (sp.tokenizer.estimateCharsForTokens sp.overlapTokens).toNat))
          · rw [if_pos hsp2, List.length_drop, hwin]
            omega
          · rw [if_neg hsp2, hwin]
            omega

/-- C4 amended witness: at a concrete list whose previous chunk is within
the overlap budget, the unchanged branch of the amended theorem applies. -/
theorem c4_overlap_amended_witness :
    (createOverlappingChunks c4sp [strOf "ab", strOf "cd"])[1]? = some (strOf "cd") := by
  have h := (c4_overlap_amended c4sp [strOf "ab", strOf "cd"]).2.2.2
    1 (strOf "ab") (strOf "cd") (by decide) (by decide) (by decide)
  exact h.1 (by decide)
